import Mathlib

/-!
Verification of the anharmonic scattering-rate engine of
`ballistico/anharmoniccontroller.py` (phonon-phonon "gamma" linewidths).

The development shallowly embeds, from the source:
  * the triangular broadening kernel `triangular_delta` (elementwise);
  * the mesh wavevector arithmetic (row-major unravel / ravel with wrap)
    used to build the conjugate wavevector `kpp_mapping`;
  * the triplet selection condition, statistical weight and rate formula of
    `calculate_single_gamma`;
  * the occupations accessor (lazy disk-backed cache);
  * the checkpointed accumulation loop of `calculate_gamma`:
    log replay, the resume position (including its branch-skipping `break`),
    the broadening-kernel name dispatch, and the per-record accumulator and
    gamma-tensor updates.

Real-valued float arrays are modelled as exact real (or rational) valued
functions; the heavyweight opt_einsum contraction output is a parameter
(`scaledPotential`), since no claim below depends on its numerical value.
-/

/-! ## Broadening kernel: `triangular_delta` (source lines 45-50)

The numpy function is elementwise on `params[0]`; we embed the scalar map
applied at each entry.  `delta_energy = np.abs(params[0])`,
`deltaa = np.abs(params[1])`, output `0` outside `delta_energy < deltaa`,
`1/deltaa * (1 - delta_energy/deltaa)` inside.  Rationals stand in for the
floating-point values. -/
def triangular_delta (delta_energy width : ℚ) : ℚ :=
  let d := |delta_energy|
  let da := |width|
  if d < da then 1 / da * (1 - d / da) else 0

/-! ## Mesh wavevector arithmetic (source lines 321-325)

`np.unravel_index(i, k_size, order='C')` for a 3-D mesh `(n1, n2, n3)` and
`np.ravel_multi_index(v, k_size, order='C', mode='wrap')`, where `wrap`
reduces each (possibly negative) component modulo the mesh dimension with a
non-negative result (Python `%` semantics, i.e. `Int.emod`). -/
def unravel3 (n2 n3 i : ℕ) : ℕ × ℕ × ℕ :=
  (i / (n2 * n3), (i / n3) % n2, i % n3)

def ravelWrap (n1 n2 n3 : ℕ) (v : ℤ × ℤ × ℤ) : ℕ :=
  (v.1 % (n1 : ℤ)).toNat * (n2 * n3) + (v.2.1 % (n2 : ℤ)).toNat * n3 +
    (v.2.2 % (n3 : ℤ)).toNat

/-- Source line 79: `second_sign = (int(is_plus) * 2 - 1)`. -/
def secondSign (is_plus : Bool) : ℤ :=
  (if is_plus then 1 else 0) * 2 - 1

/-- Source lines 324-325: `i_kpp_vec = i_k[:, np.newaxis] + (int(is_plus)*2-1) * i_kp_vec`
followed by `np.ravel_multi_index(i_kpp_vec, k_size, order='C', mode='wrap')`:
the conjugate wavevector index for bra wavevector `ik` and candidate `p`. -/
def kppMapping (n1 n2 n3 : ℕ) (s : ℤ) (ik p : ℕ) : ℕ :=
  let a := unravel3 n2 n3 ik
  let b := unravel3 n2 n3 p
  ravelWrap n1 n2 n3
    ((a.1 : ℤ) + s * (b.1 : ℤ), (a.2.1 : ℤ) + s * (b.2.1 : ℤ),
      (a.2.2 : ℤ) + s * (b.2.2 : ℤ))

/-- Source lines 359, 374-377: `np.ravel_multi_index([i, mu], [nptk, n_modes], order='C')`,
the flat mode index `nu = wavevector_index * n_modes + branch_index`. -/
def ravel2 (n_modes i mu : ℕ) : ℕ := i * n_modes + mu

/-- Source lines 374-377: the three integer fields of one checkpoint-log line for
the triplet `(ik, mu), (p, mup), (kpp_mapping p, mupp)`:
`nu_single`, `nup_vec` entry and `nupp_vec` entry. -/
def logLineIndices (n1 n2 n3 n_modes : ℕ) (is_plus : Bool)
    (ik mu p mup mupp : ℕ) : ℕ × ℕ × ℕ :=
  (ravel2 n_modes ik mu, ravel2 n_modes p mup,
    ravel2 n_modes (kppMapping n1 n2 n3 (secondSign is_plus) ik p) mupp)

/-! Helper lemmas: `unravel3` inverts `ravelWrap`, and each component of
`ravelWrap` is congruent to the corresponding input component. -/

theorem ravelWrap_lt (n1 n2 n3 : ℕ) (h1 : 0 < n1) (h2 : 0 < n2) (h3 : 0 < n3)
    (v : ℤ × ℤ × ℤ) : ravelWrap n1 n2 n3 v < n1 * n2 * n3 := by
  obtain ⟨a, rfl⟩ : ∃ a, n1 = a + 1 := ⟨n1 - 1, by omega⟩
  obtain ⟨b, rfl⟩ : ∃ b, n2 = b + 1 := ⟨n2 - 1, by omega⟩
  obtain ⟨c, rfl⟩ : ∃ c, n3 = c + 1 := ⟨n3 - 1, by omega⟩
  have hz1 : (0 : ℤ) < ((a + 1 : ℕ) : ℤ) := by exact_mod_cast h1
  have hz2 : (0 : ℤ) < ((b + 1 : ℕ) : ℤ) := by exact_mod_cast h2
  have hz3 : (0 : ℤ) < ((c + 1 : ℕ) : ℤ) := by exact_mod_cast h3
  have e1 : (v.1 % ((a + 1 : ℕ) : ℤ)).toNat ≤ a := by
    have := Int.emod_lt_of_pos v.1 hz1
    omega
  have e2 : (v.2.1 % ((b + 1 : ℕ) : ℤ)).toNat ≤ b := by
    have := Int.emod_lt_of_pos v.2.1 hz2
    omega
  have e3 : (v.2.2 % ((c + 1 : ℕ) : ℤ)).toNat ≤ c := by
    have := Int.emod_lt_of_pos v.2.2 hz3
    omega
  unfold ravelWrap
  have key : (a + 1) * (b + 1) * (c + 1) =
      a * ((b + 1) * (c + 1)) + b * (c + 1) + c + 1 := by ring
  calc (v.1 % ((a + 1 : ℕ) : ℤ)).toNat * ((b + 1) * (c + 1)) +
      (v.2.1 % ((b + 1 : ℕ) : ℤ)).toNat * (c + 1) +
      (v.2.2 % ((c + 1 : ℕ) : ℤ)).toNat
      ≤ a * ((b + 1) * (c + 1)) + b * (c + 1) + c := by gcongr
    _ < (a + 1) * (b + 1) * (c + 1) := by linarith [key]

theorem unravel3_ravelWrap (n1 n2 n3 : ℕ) (h1 : 0 < n1) (h2 : 0 < n2)
    (h3 : 0 < n3) (v : ℤ × ℤ × ℤ) :
    unravel3 n2 n3 (ravelWrap n1 n2 n3 v) =
      ((v.1 % (n1 : ℤ)).toNat, (v.2.1 % (n2 : ℤ)).toNat,
        (v.2.2 % (n3 : ℤ)).toNat) := by
  have hz2 : (0 : ℤ) < (n2 : ℤ) := by exact_mod_cast h2
  have hz3 : (0 : ℤ) < (n3 : ℤ) := by exact_mod_cast h3
  have e2 : (v.2.1 % (n2 : ℤ)).toNat < n2 := by
    have := Int.emod_lt_of_pos v.2.1 hz2
    omega
  have e3 : (v.2.2 % (n3 : ℤ)).toNat < n3 := by
    have := Int.emod_lt_of_pos v.2.2 hz3
    omega
  set A := (v.1 % (n1 : ℤ)).toNat with hA
  set B := (v.2.1 % (n2 : ℤ)).toNat with hB
  set C := (v.2.2 % (n3 : ℤ)).toNat with hC
  unfold unravel3 ravelWrap
  rw [← hA, ← hB, ← hC]
  have hr : A * (n2 * n3) + B * n3 + C = C + (B + A * n2) * n3 := by ring
  refine Prod.ext ?_ (Prod.ext ?_ ?_)
  · show (A * (n2 * n3) + B * n3 + C) / (n2 * n3) = A
    have hlt : B * n3 + C < n2 * n3 := by
      obtain ⟨b, rfl⟩ : ∃ b, n2 = b + 1 := ⟨n2 - 1, by omega⟩
      have keyn : (b + 1) * n3 = b * n3 + n3 := by ring
      have : B * n3 ≤ b * n3 := by gcongr; omega
      omega
    have hre : A * (n2 * n3) + B * n3 + C = (B * n3 + C) + (n2 * n3) * A := by
      ring
    rw [hre, Nat.add_mul_div_left _ _ (Nat.mul_pos h2 h3),
      Nat.div_eq_of_lt hlt, Nat.zero_add]
  · show (A * (n2 * n3) + B * n3 + C) / n3 % n2 = B
    rw [hr, Nat.add_mul_div_right _ _ h3, Nat.div_eq_of_lt e3, Nat.zero_add,
      Nat.add_mul_mod_self_right, Nat.mod_eq_of_lt e2]
  · show (A * (n2 * n3) + B * n3 + C) % n3 = C
    rw [hr, Nat.add_mul_mod_self_right, Nat.mod_eq_of_lt e3]

theorem toNat_emod_modEq (a : ℤ) (n : ℕ) (hn : 0 < n) :
    ((a % (n : ℤ)).toNat : ℤ) ≡ a [ZMOD n] := by
  have hnn : (0 : ℤ) ≤ a % (n : ℤ) :=
    Int.emod_nonneg a (by exact_mod_cast hn.ne')
  rw [Int.toNat_of_nonneg hnn]
  exact (Int.emod_emod_of_dvd a dvd_rfl : a % (n : ℤ) % (n : ℤ) = a % (n : ℤ))

/-! ## Triplet selection, statistical weight and rate in
`calculate_single_gamma` (source lines 77-134)

`omegas`, `frequencies`, `density` are the float arrays passed in, modelled
as real-valued functions of `(wavevector, branch)`; `kpp_mapping` is the
conjugate-wavevector array (instantiated with `kppMapping` by
`calculate_gamma`); `sigma_small` covers both the scalar configured width
(a constant function) and the adaptive per-triplet array;
`broadening_function` receives, as in the source, the energy difference and
`2π·sigma`; `scaledPotential` is the gathered output of the opt_einsum
contraction (source lines 116-127), whose numerical value no claim below
depends on. -/

/-- Source line 8: `DELTA_THRESHOLD = 2` (the truncation multiplier). -/
def DELTA_THRESHOLD : ℝ := 2

/-- Source lines 81-82: `np.abs(omegas[index_k, mu] + second_sign * omegas[index_kp_full]
- omegas[kpp_mapping])`, at entry `(p, mup, mupp)`. -/
def omegasDifference (is_plus : Bool) (omegas : ℕ → ℕ → ℝ) (kppMap : ℕ → ℕ)
    (index_k mu p mup mupp : ℕ) : ℝ :=
  |omegas index_k mu + (secondSign is_plus : ℝ) * omegas p mup -
    omegas (kppMap p) mupp|

/-- Source lines 84-87: the boolean mask `condition`; `interactions` is exactly
`np.where(condition)`, so a candidate `(p, mup, mupp)` reaches the sparse
gather and matrix-element evaluation (lines 93-134) iff this holds. -/
def tripletCondition (is_plus : Bool) (omegas frequencies : ℕ → ℕ → ℝ)
    (kppMap : ℕ → ℕ) (sigma_small : ℕ → ℕ → ℕ → ℝ)
    (frequencies_threshold : ℝ) (index_k mu p mup mupp : ℕ) : Prop :=
  omegasDifference is_plus omegas kppMap index_k mu p mup mupp <
      DELTA_THRESHOLD * 2 * Real.pi * sigma_small p mup mupp ∧
    frequencies p mup > frequencies_threshold ∧
    frequencies (kppMap p) mupp > frequencies_threshold

/-- Source lines 99-114: the statistical weight (`density` difference for a
"plus" process, `.5 * (1 + ...)` for "minus"), divided by
`omegas[kp] * omegas[kpp]`, times the broadening kernel evaluated at the
energy difference and `2π·sigma`. -/
noncomputable def diracDelta (is_plus : Bool) (omegas density : ℕ → ℕ → ℝ)
    (kppMap : ℕ → ℕ) (sigma_small : ℕ → ℕ → ℕ → ℝ)
    (broadening_function : ℝ → ℝ → ℝ) (index_k mu p mup mupp : ℕ) : ℝ :=
  (if is_plus then density p mup - density (kppMap p) mupp
    else 0.5 * (1 + density p mup + density (kppMap p) mupp)) /
    (omegas p mup * omegas (kppMap p) mupp) *
    broadening_function (omegasDifference is_plus omegas kppMap index_k mu p mup mupp)
      (2 * Real.pi * sigma_small p mup mupp)

/-- Source lines 128-132: `pot_times_dirac = np.abs(scaled_potential)**2 * dirac_delta`
then `units._hbar * np.pi / 4. * pot_times_dirac / omegas[index_k, mu] / nptk
* gammatothz`; `hbar` and `gammatothz` are the external unit constants of
lines 131-132. -/
noncomputable def potTimesDirac (is_plus : Bool) (omegas density : ℕ → ℕ → ℝ)
    (kppMap : ℕ → ℕ) (sigma_small : ℕ → ℕ → ℕ → ℝ)
    (broadening_function : ℝ → ℝ → ℝ) (scaledPotential : ℕ → ℕ → ℕ → ℂ)
    (nptk : ℕ) (hbar gammatothz : ℝ) (index_k mu p mup mupp : ℕ) : ℝ :=
  hbar * Real.pi / 4 *
    (Complex.abs (scaledPotential p mup mupp) ^ 2 *
      diracDelta is_plus omegas density kppMap sigma_small broadening_function
        index_k mu p mup mupp) /
    omegas index_k mu / (nptk : ℝ) * gammatothz

/-- The truncation multiplier as the spec names it (§4.3 writes the window as
`2·TRUNCATION·π·width`; the source's name for the same constant is
`DELTA_THRESHOLD`). -/
def TRUNCATION : ℝ := 2

/-- The spec's selection test (§4.3, claim C3), stated in its own words: the
energy window `|ω(k,mu) + s·ω(p,mup) − ω(pp,mupp)| < 2·TRUNCATION·π·width`
with `pp` the wrapped conjugate of `p`, and both partner frequencies strictly
above the physical-mode threshold. -/
def specSelectionTest (is_plus : Bool) (omegas frequencies : ℕ → ℕ → ℝ)
    (kppMap : ℕ → ℕ) (sigma_small : ℕ → ℕ → ℕ → ℝ)
    (frequencies_threshold : ℝ) (index_k mu p mup mupp : ℕ) : Prop :=
  |omegas index_k mu + (secondSign is_plus : ℝ) * omegas p mup -
      omegas (kppMap p) mupp| <
      2 * TRUNCATION * Real.pi * sigma_small p mup mupp ∧
    frequencies p mup > frequencies_threshold ∧
    frequencies (kppMap p) mupp > frequencies_threshold

/-- C3: in `calculate_single_gamma`, a candidate triplet `(p, mup, mupp)` for
bra mode `(index_k, mu)` and process sign `s` proceeds to matrix-element
evaluation (mask `condition`, lines 84-87, whose true entries are exactly the
gathered `interactions`) if and only if
`|omega(k,mu) + s*omega(p,mup) - omega(pp,mupp)| < 2*TRUNCATION*pi*width`
(width from the adaptive estimator or the fixed value) and both
`frequencies[p, mup]` and `frequencies[pp, mupp]` strictly exceed the
physical-mode frequency threshold. -/
theorem triplet_proceeds_iff_spec_selection (is_plus : Bool)
    (omegas frequencies : ℕ → ℕ → ℝ) (kppMap : ℕ → ℕ)
    (sigma_small : ℕ → ℕ → ℕ → ℝ) (frequencies_threshold : ℝ)
    (index_k mu p mup mupp : ℕ) :
    tripletCondition is_plus omegas frequencies kppMap sigma_small
        frequencies_threshold index_k mu p mup mupp ↔
      specSelectionTest is_plus omegas frequencies kppMap sigma_small
        frequencies_threshold index_k mu p mup mupp := by
  unfold tripletCondition specSelectionTest omegasDifference DELTA_THRESHOLD
    TRUNCATION
  constructor
  · rintro ⟨hw, hf1, hf2⟩
    refine ⟨by linarith [hw], hf1, hf2⟩
  · rintro ⟨hw, hf1, hf2⟩
    refine ⟨by linarith [hw], hf1, hf2⟩

/-- C5: for a "plus" process, the statistical weight of a surviving triplet is
the occupation difference `n(kp) - n(kpp)`; hence when the two partner modes
have equal occupations, the triplet's rate contribution (its
`pot_times_dirac` entry) is exactly 0. -/
theorem plus_rate_zero_of_equal_occupations (omegas frequencies density : ℕ → ℕ → ℝ)
    (kppMap : ℕ → ℕ) (sigma_small : ℕ → ℕ → ℕ → ℝ)
    (broadening_function : ℝ → ℝ → ℝ) (scaledPotential : ℕ → ℕ → ℕ → ℂ)
    (nptk : ℕ) (hbar gammatothz : ℝ) (frequencies_threshold : ℝ)
    (index_k mu p mup mupp : ℕ)
    (hocc : density p mup = density (kppMap p) mupp)
    (hsurv : tripletCondition true omegas frequencies kppMap sigma_small
      frequencies_threshold index_k mu p mup mupp) :
    diracDelta true omegas density kppMap sigma_small broadening_function
        index_k mu p mup mupp =
      (density p mup - density (kppMap p) mupp) /
          (omegas p mup * omegas (kppMap p) mupp) *
        broadening_function
          (omegasDifference true omegas kppMap index_k mu p mup mupp)
          (2 * Real.pi * sigma_small p mup mupp) ∧
    potTimesDirac true omegas density kppMap sigma_small broadening_function
      scaledPotential nptk hbar gammatothz index_k mu p mup mupp = 0 := by
  constructor
  · unfold diracDelta
    simp
  · unfold potTimesDirac diracDelta
    rw [hocc]
    simp

/-- Witness for C5 at a concrete input: all frequencies 1 (above threshold 0),
`omegas` identically 0, unit adaptive width, equal occupations; the
hypotheses hold and the rate contribution of the surviving triplet is 0. -/
theorem plus_rate_zero_of_equal_occupations_witness :
    ((fun _ _ => (5 : ℝ)) 0 0 = (fun _ _ => (5 : ℝ)) (id 0) 0) ∧
    tripletCondition true (fun _ _ => 0) (fun _ _ => 1) id (fun _ _ _ => 1)
      0 0 0 0 0 0 ∧
    potTimesDirac true (fun _ _ => 0) (fun _ _ => 5) id (fun _ _ _ => 1)
      (fun _ _ => 1) (fun _ _ _ => 1) 1 1 1 0 0 0 0 0 = 0 := by
  have hcond : tripletCondition true (fun _ _ => 0) (fun _ _ => 1) id
      (fun _ _ _ => 1) 0 0 0 0 0 0 := by
    refine ⟨?_, by norm_num, by norm_num⟩
    have h0 : omegasDifference true (fun _ _ => 0) id 0 0 0 0 0 = 0 := by
      unfold omegasDifference
      norm_num
    rw [h0]
    unfold DELTA_THRESHOLD
    positivity
  exact ⟨rfl, hcond,
    (plus_rate_zero_of_equal_occupations (fun _ _ => 0) (fun _ _ => 1)
      (fun _ _ => 5) id (fun _ _ _ => 1) (fun _ _ => 1) (fun _ _ _ => 1)
      1 1 1 0 0 0 0 0 0 rfl hcond).2⟩

/-- Extracting the wavevector part of a flat mode index: `nu / n_modes`. -/
theorem ravel2_div (n_modes i m : ℕ) (hm : m < n_modes) :
    ravel2 n_modes i m / n_modes = i := by
  unfold ravel2
  rw [Nat.mul_comm i n_modes, Nat.mul_add_div (by omega), Nat.div_eq_of_lt hm]
  omega

/-- C4: every triplet record appended to a checkpoint log satisfies exact
quasi-momentum conservation over the mesh's modular arithmetic: the
wavevector parts of the logged flat mode indices recover `index_k` and
`index_kp`; the logged conjugate `index_kpp` lies on the mesh, and each of
its row-major components is congruent, modulo the corresponding mesh
dimension, to `index_k + index_kp` componentwise for a plus-process record
and to `index_k - index_kp` for a minus-process record. -/
theorem logged_triplet_momentum_conservation
    (n1 n2 n3 n_modes : ℕ) (h1 : 0 < n1) (h2 : 0 < n2) (h3 : 0 < n3)
    (is_plus : Bool) (ik mu p mup mupp : ℕ)
    (hmu : mu < n_modes) (hmup : mup < n_modes) (hmupp : mupp < n_modes) :
    (logLineIndices n1 n2 n3 n_modes is_plus ik mu p mup mupp).1 / n_modes = ik ∧
    (logLineIndices n1 n2 n3 n_modes is_plus ik mu p mup mupp).2.1 / n_modes = p ∧
    (logLineIndices n1 n2 n3 n_modes is_plus ik mu p mup mupp).2.2 / n_modes <
      n1 * n2 * n3 ∧
    (((unravel3 n2 n3
        ((logLineIndices n1 n2 n3 n_modes is_plus ik mu p mup mupp).2.2 / n_modes)).1 : ℤ) ≡
      ((unravel3 n2 n3 ik).1 : ℤ) +
        (if is_plus then 1 else -1) * ((unravel3 n2 n3 p).1 : ℤ) [ZMOD n1]) ∧
    (((unravel3 n2 n3
        ((logLineIndices n1 n2 n3 n_modes is_plus ik mu p mup mupp).2.2 / n_modes)).2.1 : ℤ) ≡
      ((unravel3 n2 n3 ik).2.1 : ℤ) +
        (if is_plus then 1 else -1) * ((unravel3 n2 n3 p).2.1 : ℤ) [ZMOD n2]) ∧
    (((unravel3 n2 n3
        ((logLineIndices n1 n2 n3 n_modes is_plus ik mu p mup mupp).2.2 / n_modes)).2.2 : ℤ) ≡
      ((unravel3 n2 n3 ik).2.2 : ℤ) +
        (if is_plus then 1 else -1) * ((unravel3 n2 n3 p).2.2 : ℤ) [ZMOD n3]) := by
  have hsign : secondSign is_plus = (if is_plus then 1 else -1) := by
    cases is_plus <;> rfl
  have hkppdiv :
      (logLineIndices n1 n2 n3 n_modes is_plus ik mu p mup mupp).2.2 / n_modes =
        kppMapping n1 n2 n3 (secondSign is_plus) ik p :=
    ravel2_div n_modes _ mupp hmupp
  have hkpp : unravel3 n2 n3 (kppMapping n1 n2 n3 (secondSign is_plus) ik p) =
      ((((unravel3 n2 n3 ik).1 : ℤ) + secondSign is_plus * ((unravel3 n2 n3 p).1 : ℤ)) %
          (n1 : ℤ) |>.toNat,
        (((unravel3 n2 n3 ik).2.1 : ℤ) + secondSign is_plus * ((unravel3 n2 n3 p).2.1 : ℤ)) %
          (n2 : ℤ) |>.toNat,
        (((unravel3 n2 n3 ik).2.2 : ℤ) + secondSign is_plus * ((unravel3 n2 n3 p).2.2 : ℤ)) %
          (n3 : ℤ) |>.toNat) := by
    unfold kppMapping
    exact unravel3_ravelWrap n1 n2 n3 h1 h2 h3 _
  refine ⟨ravel2_div n_modes ik mu hmu, ravel2_div n_modes p mup hmup, ?_, ?_, ?_, ?_⟩
  · rw [hkppdiv]
    unfold kppMapping
    exact ravelWrap_lt n1 n2 n3 h1 h2 h3 _
  · rw [hkppdiv, hkpp, ← hsign]
    exact toNat_emod_modEq _ n1 h1
  · rw [hkppdiv, hkpp, ← hsign]
    exact toNat_emod_modEq _ n2 h2
  · rw [hkppdiv, hkpp, ← hsign]
    exact toNat_emod_modEq _ n3 h3

/-- Witness for C4 at a concrete input: a minus-process record on a `(2,1,1)`
mesh with two branches. -/
theorem logged_triplet_momentum_conservation_witness :
    (0 : ℕ) < 2 ∧
    ((logLineIndices 2 1 1 2 false 1 0 1 1 1).1 / 2 = 1 ∧
    (logLineIndices 2 1 1 2 false 1 0 1 1 1).2.1 / 2 = 1 ∧
    (logLineIndices 2 1 1 2 false 1 0 1 1 1).2.2 / 2 < 2 * 1 * 1 ∧
    (((unravel3 1 1 ((logLineIndices 2 1 1 2 false 1 0 1 1 1).2.2 / 2)).1 : ℤ) ≡
      ((unravel3 1 1 1).1 : ℤ) +
        (if false then 1 else -1) * ((unravel3 1 1 1).1 : ℤ) [ZMOD 2]) ∧
    (((unravel3 1 1 ((logLineIndices 2 1 1 2 false 1 0 1 1 1).2.2 / 2)).2.1 : ℤ) ≡
      ((unravel3 1 1 1).2.1 : ℤ) +
        (if false then 1 else -1) * ((unravel3 1 1 1).2.1 : ℤ) [ZMOD 1]) ∧
    (((unravel3 1 1 ((logLineIndices 2 1 1 2 false 1 0 1 1 1).2.2 / 2)).2.2 : ℤ) ≡
      ((unravel3 1 1 1).2.2 : ℤ) +
        (if false then 1 else -1) * ((unravel3 1 1 1).2.2 : ℤ) [ZMOD 1])) :=
  ⟨by decide,
    logged_triplet_momentum_conservation 2 1 1 2 (by decide) (by decide)
      (by decide) false 1 0 1 1 1 (by decide) (by decide) (by decide)⟩

/-- C7 counterexample: at `delta_energy = 0`, `width = -1` we have
`|delta_energy| ≥ width`, yet `triangular_delta` returns 1, not 0 — the
source takes the absolute value of the width before building the ramp. -/
theorem triangular_delta_negative_width_counterexample :
    |(0 : ℚ)| ≥ (-1 : ℚ) ∧ triangular_delta 0 (-1) = 1 ∧
      triangular_delta 0 (-1) ≠ 0 := by
  refine ⟨by norm_num, ?_, ?_⟩ <;> · unfold triangular_delta; norm_num

/-- C7 (amended: restricted to nonnegative widths, which the negative-width
counterexample forces; the source applies `np.abs` to the width): for every
`delta_energy` and every nonnegative `width`, `triangular_delta` returns
exactly 0 wherever `|delta_energy| ≥ width`, returns the linear ramp
`(1/width) * (1 - |delta_energy|/width)` wherever `|delta_energy| < width`,
and is strictly decreasing in `|delta_energy|` on `[0, width)`. -/
theorem triangular_delta_ramp_spec (delta_energy width : ℚ) (hw : 0 ≤ width) :
    (width ≤ |delta_energy| → triangular_delta delta_energy width = 0) ∧
    (|delta_energy| < width →
      triangular_delta delta_energy width =
        1 / width * (1 - |delta_energy| / width)) ∧
    (∀ d1 d2 : ℚ, |d1| < |d2| → |d2| < width →
      triangular_delta d2 width < triangular_delta d1 width) := by
  have habs : |width| = width := abs_of_nonneg hw
  refine ⟨?_, ?_, ?_⟩
  · intro hge
    unfold triangular_delta
    rw [habs, if_neg (not_lt.mpr hge)]
  · intro hlt
    unfold triangular_delta
    rw [habs, if_pos hlt]
  · intro d1 d2 h12 h2w
    have hwpos : 0 < width := lt_of_le_of_lt (abs_nonneg d2) h2w
    have h1w : |d1| < width := lt_trans h12 h2w
    unfold triangular_delta
    rw [habs, if_pos h2w, if_pos h1w]
    have hdiv : |d1| / width < |d2| / width := by gcongr
    have hinv : 0 < 1 / width := by positivity
    nlinarith [hdiv, hinv]

/-- Witness for C7's amended theorem at a concrete input: width 2,
`delta_energy` 1 lies in the ramp region. -/
theorem triangular_delta_ramp_spec_witness :
    (0 : ℚ) ≤ 2 ∧
      triangular_delta 1 2 = 1 / 2 * (1 - |(1 : ℚ)| / 2) :=
  ⟨by norm_num, (triangular_delta_ramp_spec 1 2 (by norm_num)).2.1 (by norm_num)⟩

/-- C10: `triangular_delta` depends only on the absolute values of its two
inputs: negating the energy difference or the width leaves the output
unchanged, so a negative configured width behaves identically to its
magnitude. -/
theorem triangular_delta_abs_invariant (delta_energy width : ℚ) :
    triangular_delta (-delta_energy) width =
        triangular_delta delta_energy width ∧
      triangular_delta delta_energy (-width) =
        triangular_delta delta_energy width := by
  unfold triangular_delta
  rw [abs_neg delta_energy, abs_neg width]
  exact ⟨rfl, rfl⟩

/-! ## Occupations accessor (source lines 16, 156-185)

The controller's `occupations` property: an in-memory cache
(`self._occupations`), a disk cache (`OCCUPATIONS_FILE`, whose absence is the
recoverable `FileNotFoundError` branch), and on a double miss an on-the-fly
computation followed by the setter (which saves to disk and fills the
in-memory cache).  `kB`, `J` and `hbar` are the external `ase.units`
constants `units.kB`, `units.J` and `units._hbar`. -/

/-- Source line 16: `KELVINTOTHZ = units.kB / units.J / (2 * np.pi * units._hbar) * 1e-12`. -/
noncomputable def KELVINTOTHZ (kB J hbar : ℝ) : ℝ :=
  kB / J / (2 * Real.pi * hbar) * 1e-12

/-- Source lines 168-177: the freshly computed occupation array.
`temp = temperature * KELVINTOTHZ` (line 170), a mode is physical iff
`frequencies > frequency_threshold` (line 172); quantum statistics gives
`1. / (np.exp(frequencies/temp) - 1.)` (line 175), classical
`temp / frequencies` (line 177); non-physical entries stay at the
`np.zeros_like` value 0 (line 171). -/
noncomputable def computeOccupations (is_classic : Bool)
    (frequencies : ℕ → ℕ → ℝ) (frequency_threshold temp : ℝ) : ℕ → ℕ → ℝ :=
  fun k m =>
    if frequencies k m > frequency_threshold then
      if is_classic = false then 1 / (Real.exp (frequencies k m / temp) - 1)
      else temp / frequencies k m
    else 0

/-- The two caches of the accessor: `mem` is `self._occupations`, `disk` the
persisted `occupations.npy` (`none` when the file is absent). -/
structure OccCache where
  mem : Option (ℕ → ℕ → ℝ)
  disk : Option (ℕ → ℕ → ℝ)

/-- Source lines 160-185: the getter.  If the in-memory cache is empty, try
the disk file; if still empty, compute the density and invoke the setter
(lines 181-185: `np.save` then assign), then return the cached array. -/
noncomputable def occupationsGet (is_classic : Bool)
    (frequencies : ℕ → ℕ → ℝ) (frequency_threshold temperature kB J hbar : ℝ)
    (st : OccCache) : (ℕ → ℕ → ℝ) × OccCache :=
  match st.mem with
  | some a => (a, st)
  | none =>
    match st.disk with
    | some a => (a, { st with mem := some a })
    | none =>
      let density := computeOccupations is_classic frequencies
        frequency_threshold (temperature * KELVINTOTHZ kB J hbar)
      (density, { mem := some density, disk := some density })

/-- C8: on a full cache miss the occupations accessor returns, for every
physical mode (frequency strictly above the threshold),
`1/(exp(hbar*omega/kT) - 1)` under quantum statistics or `kT/(hbar*omega)`
under classical statistics — where `omega = 2π·f·1e12` is the angular
frequency of the THz frequency `f` and `k = kB/J` is Boltzmann's constant in
SI units — returns exactly 0 for every non-physical mode, and the computed
array is persisted to disk (via the setter) in the returned state. -/
theorem occupations_formula_and_persistence (is_classic : Bool)
    (frequencies : ℕ → ℕ → ℝ) (frequency_threshold temperature kB J hbar : ℝ)
    (hT : 0 < temperature) (hkB : 0 < kB) (hJ : 0 < J) (hh : 0 < hbar)
    (st : OccCache) (hmem : st.mem = none) (hdisk : st.disk = none) :
    (∀ k m, frequencies k m > frequency_threshold → is_classic = false →
      (occupationsGet is_classic frequencies frequency_threshold temperature
          kB J hbar st).1 k m =
        1 / (Real.exp (hbar * (2 * Real.pi * frequencies k m * 1e12) /
          (kB / J * temperature)) - 1)) ∧
    (∀ k m, frequencies k m > frequency_threshold → is_classic = true →
      (occupationsGet is_classic frequencies frequency_threshold temperature
          kB J hbar st).1 k m =
        kB / J * temperature /
          (hbar * (2 * Real.pi * frequencies k m * 1e12))) ∧
    (∀ k m, ¬(frequencies k m > frequency_threshold) →
      (occupationsGet is_classic frequencies frequency_threshold temperature
          kB J hbar st).1 k m = 0) ∧
    (occupationsGet is_classic frequencies frequency_threshold temperature
        kB J hbar st).2.disk =
      some (occupationsGet is_classic frequencies frequency_threshold
        temperature kB J hbar st).1 := by
  obtain ⟨mem, disk⟩ := st
  simp only at hmem hdisk
  subst hmem
  subst hdisk
  have hpi : Real.pi ≠ 0 := Real.pi_ne_zero
  have hTn : temperature ≠ 0 := ne_of_gt hT
  have hkBn : kB ≠ 0 := ne_of_gt hkB
  have hJn : J ≠ 0 := ne_of_gt hJ
  have hhn : hbar ≠ 0 := ne_of_gt hh
  refine ⟨?_, ?_, ?_, rfl⟩
  · intro k m hphys hq
    show computeOccupations is_classic frequencies frequency_threshold
      (temperature * KELVINTOTHZ kB J hbar) k m = _
    unfold computeOccupations
    rw [if_pos hphys, if_pos hq]
    have hexp : frequencies k m / (temperature * KELVINTOTHZ kB J hbar) =
        hbar * (2 * Real.pi * frequencies k m * 1e12) /
          (kB / J * temperature) := by
      unfold KELVINTOTHZ
      field_simp
      ring
    rw [hexp]
  · intro k m hphys hc
    show computeOccupations is_classic frequencies frequency_threshold
      (temperature * KELVINTOTHZ kB J hbar) k m = _
    unfold computeOccupations
    rw [if_pos hphys, if_neg (by rw [hc]; simp)]
    rcases eq_or_ne (frequencies k m) 0 with hf | hf
    · rw [hf]
      simp
    · unfold KELVINTOTHZ
      field_simp
      ring
  · intro k m hnp
    show computeOccupations is_classic frequencies frequency_threshold
      (temperature * KELVINTOTHZ kB J hbar) k m = _
    unfold computeOccupations
    rw [if_neg hnp]

/-- Witness for C8 at a concrete input: quantum statistics, all frequencies
1 THz above threshold 0, unit temperature and unit constants, both caches
empty. -/
theorem occupations_formula_and_persistence_witness :
    (0 : ℝ) < 1 ∧ (OccCache.mk none none).mem = none ∧
    ((∀ k m, (fun _ _ => (1 : ℝ)) k m > (0 : ℝ) → false = false →
      (occupationsGet false (fun _ _ => (1 : ℝ)) 0 1 1 1 1
          (OccCache.mk none none)).1 k m =
        1 / (Real.exp (1 * (2 * Real.pi * (fun _ _ => (1 : ℝ)) k m * 1e12) /
          (1 / 1 * 1)) - 1)) ∧
    (∀ k m, (fun _ _ => (1 : ℝ)) k m > (0 : ℝ) → false = true →
      (occupationsGet false (fun _ _ => (1 : ℝ)) 0 1 1 1 1
          (OccCache.mk none none)).1 k m =
        1 / 1 * 1 / (1 * (2 * Real.pi * (fun _ _ => (1 : ℝ)) k m * 1e12))) ∧
    (∀ k m, ¬((fun _ _ => (1 : ℝ)) k m > (0 : ℝ)) →
      (occupationsGet false (fun _ _ => (1 : ℝ)) 0 1 1 1 1
          (OccCache.mk none none)).1 k m = 0) ∧
    (occupationsGet false (fun _ _ => (1 : ℝ)) 0 1 1 1 1
        (OccCache.mk none none)).2.disk =
      some (occupationsGet false (fun _ _ => (1 : ℝ)) 0 1 1 1 1
        (OccCache.mk none none)).1) :=
  ⟨by norm_num, rfl,
    occupations_formula_and_persistence false (fun _ _ => (1 : ℝ)) 0 1 1 1 1
      (by norm_num) (by norm_num) (by norm_num) (by norm_num)
      (OccCache.mk none none) rfl rfl⟩

/-! ## The checkpointed accumulation loop of `calculate_gamma`
(source lines 222-395)

The loop is modelled at record granularity: `LogRecord` is both one parsed
checkpoint line (line 243) and one freshly computed triplet contribution
(lines 372-394), since both update the accumulators identically.  The
numerical output of `calculate_single_gamma` per bra mode enters as the
parameter `modeRecords` (its values are settled by the
`calculate_single_gamma` embedding above; none of the control-flow claims
below depend on them). -/

/-- One triplet record: flat bra mode `nu`, partner modes `nup`, `nupp`,
rate contribution `value`, phase-space weight `value_ps` (line 243). -/
structure LogRecord where
  nu : ℕ
  nup : ℕ
  nupp : ℕ
  value : ℝ
  ps : ℝ

/-- The mutable state of one `calculate_gamma` invocation:
`self.phonons._gamma`, `self.phonons._ps`, `self.phonons._gamma_tensor`,
plus a count of the checkpoint lines written by this invocation
(the `np.savetxt` calls, line 394). -/
structure GammaState where
  gamma : ℕ → ℝ
  ps : ℕ → ℝ
  gammaTensor : ℕ → ℕ → ℝ
  linesWritten : ℕ

/-- `array[i] += v` on a per-mode accumulator. -/
def addAt1 (g : ℕ → ℝ) (i : ℕ) (v : ℝ) : ℕ → ℝ :=
  fun n => if n = i then g n + v else g n

/-- `tensor[i, j] += v` on the mode-pair tensor. -/
def addAt2 (t : ℕ → ℕ → ℝ) (i j : ℕ) (v : ℝ) : ℕ → ℕ → ℝ :=
  fun n m => if n = i ∧ m = j then t n m + v else t n m

/-- Source lines 247-255 (replay) and 379-391 (fresh computation): one
record's accumulation.  `_gamma[nu] += value` and `_ps[nu] += value_ps`
always; only when the full tensor is requested, the signed scatter into
`gamma_tensor[nu, nup]` then `gamma_tensor[nu, nupp]` — a "plus" record
subtracts at the kp partner and adds at the kpp partner, a "minus" record
adds at both. -/
def processRecord (enabled isPlus : Bool) (st : GammaState) (r : LogRecord) :
    GammaState :=
  { st with
    gamma := addAt1 st.gamma r.nu r.value
    ps := addAt1 st.ps r.nu r.ps
    gammaTensor :=
      if enabled then
        addAt2 (addAt2 st.gammaTensor r.nu r.nup
          (if isPlus then -r.value else r.value)) r.nu r.nupp r.value
      else st.gammaTensor }

/-- A freshly computed record additionally appends one checkpoint line
(line 394). -/
def processFresh (enabled isPlus : Bool) (st : GammaState) (r : LogRecord) :
    GammaState :=
  let st1 := processRecord enabled isPlus st r
  { st1 with linesWritten := st1.linesWritten + 1 }

/-- Source lines 242-255: replaying every line of an existing checkpoint
log into the accumulators. -/
def replayLog (enabled isPlus : Bool) (log : List LogRecord)
    (st : GammaState) : GammaState :=
  log.foldl (processRecord enabled isPlus) st

/-- Source lines 234, 242-246, 314-315: the resume cursor.  `read_nu` starts
at `-1`, is overwritten by the `nu` field of every replayed line, and is
incremented once before the loop; so it is zero for a missing or empty log
and one past the last logged bra mode otherwise. -/
def readNu (log : List LogRecord) : ℕ :=
  match log.getLast? with
  | none => 0
  | some r => r.nu + 1

/-- Source lines 316-319 and 355-357: the bra modes whose branch-loop body
actually runs in a (possibly resumed) pass.  The wavevector loop starts at
`initial_k = read_nu / n_modes`; inside it the branch loop executes `break`
as soon as `index_k == initial_k and mu < initial_mu`
(`initial_mu = read_nu % n_modes`), so the branches retained at each
wavevector are the prefix of `range(n_modes)` on which that test is false. -/
def visitedModes (nptk n_modes read_nu : ℕ) : List (ℕ × ℕ) :=
  if read_nu < nptk * n_modes then
    let initial_k := read_nu / n_modes
    let initial_mu := read_nu % n_modes
    ((List.range nptk).drop initial_k).flatMap fun ik =>
      ((List.range n_modes).takeWhile
        (fun mu => !(ik == initial_k && decide (mu < initial_mu)))).map
        fun mu => (ik, mu)
  else []

/-- Modelled from the spec (§4.5, claim C1; the corresponding code is the
loop of lines 355-357 whose restart handling the source's own TODO at
line 314 flags as incorrect): the intended resume continues at the branch
index immediately after the last logged position — or at the next
wavevector if that branch was the last — so it evaluates exactly the flat
mode indices from `read_nu` on. -/
def specVisitedModes (nptk n_modes read_nu : ℕ) : List (ℕ × ℕ) :=
  ((List.range (nptk * n_modes)).drop read_nu).map fun nu =>
    (nu / n_modes, nu % n_modes)

/-- Source lines 339-344: the broadening-kernel name dispatch. -/
inductive BroadeningKind where
  | gauss
  | lorentz
  | triangle

/-- The `if/elif/elif` chain of lines 339-344 has no final `else`: an
unrecognized name leaves the local `broadening_function` unassigned
(`none`), and its first evaluation — as a call argument at line 370 —
raises `UnboundLocalError`. -/
def broadeningDispatch (name : String) : Option BroadeningKind :=
  if name = "gauss" then some BroadeningKind.gauss
  else if name = "lorentz" then some BroadeningKind.lorentz
  else if name = "triangle" then some BroadeningKind.triangle
  else none

/-- Source lines 355-394, the bra-mode loop of one pass after replay: a mode
below the frequency threshold is skipped (line 362); a physical mode first
evaluates `broadening_function` (unbound for an unrecognized kernel name,
which aborts the pass — the `Bool` result records that error), otherwise its
fresh records are accumulated and logged. -/
def passLoop (enabled isPlus : Bool) (name : String)
    (physical : ℕ → ℕ → Bool) (modeRecords : ℕ → ℕ → List LogRecord) :
    List (ℕ × ℕ) → GammaState → GammaState × Bool
  | [], st => (st, false)
  | (ik, mu) :: rest, st =>
    if physical ik mu then
      match broadeningDispatch name with
      | none => (st, true)
      | some _ =>
        passLoop enabled isPlus name physical modeRecords rest
          ((modeRecords ik mu).foldl (processFresh enabled isPlus) st)
    else passLoop enabled isPlus name physical modeRecords rest st

/-- Source lines 233-395, one process-type pass: replay the checkpoint log
(an absent file replays nothing), take the resume cursor from the last
replayed line, and run the bra-mode loop over the visited modes. -/
def runPass (enabled isPlus : Bool) (name : String)
    (physical : ℕ → ℕ → Bool) (modeRecords : ℕ → ℕ → List LogRecord)
    (nptk n_modes : ℕ) (log : List LogRecord) (st : GammaState) :
    GammaState × Bool :=
  passLoop enabled isPlus name physical modeRecords
    (visitedModes nptk n_modes (readNu log))
    (replayLog enabled isPlus log st)

/-- Source lines 229-232: entering `calculate_gamma` resets the per-mode
rate and phase-space accumulators to zeros; the mode-pair tensor is zeroed
only when the full tensor is requested (otherwise the attribute is not
created and any prior tensor state is untouched). -/
def resetState (enabled : Bool) (prior : GammaState) : GammaState :=
  { gamma := fun _ => 0
    ps := fun _ => 0
    gammaTensor := if enabled then fun _ _ => 0 else prior.gammaTensor
    linesWritten := 0 }

/-- Source lines 222-395: a full `calculate_gamma` invocation — reset, then
the plus pass, then the minus pass (`for is_plus in [1, 0]`); an
unbound-kernel error in the plus pass propagates, skipping the minus pass. -/
def calculateGamma (enabled : Bool) (name : String)
    (physical : ℕ → ℕ → Bool) (modeRecords : Bool → ℕ → ℕ → List LogRecord)
    (nptk n_modes : ℕ) (logP logM : List LogRecord) (prior : GammaState) :
    GammaState × Bool :=
  let r1 := runPass enabled true name physical (modeRecords true) nptk
    n_modes logP (resetState enabled prior)
  if r1.2 then r1
  else runPass enabled false name physical (modeRecords false) nptk n_modes
    logM r1.1

/-- The total `value` contributed to flat mode `ν` by a record list. -/
def sumValueAt (ν : ℕ) (l : List LogRecord) : ℝ :=
  (l.map fun r => if ν = r.nu then r.value else 0).sum

/-- The total `value_ps` contributed to flat mode `ν` by a record list. -/
def sumPsAt (ν : ℕ) (l : List LogRecord) : ℝ :=
  (l.map fun r => if ν = r.nu then r.ps else 0).sum

theorem sumValueAt_append (ν : ℕ) (a b : List LogRecord) :
    sumValueAt ν (a ++ b) = sumValueAt ν a + sumValueAt ν b := by
  unfold sumValueAt
  rw [List.map_append, List.sum_append]

theorem sumPsAt_append (ν : ℕ) (a b : List LogRecord) :
    sumPsAt ν (a ++ b) = sumPsAt ν a + sumPsAt ν b := by
  unfold sumPsAt
  rw [List.map_append, List.sum_append]

theorem foldl_processRecord_gamma (e ip : Bool) (l : List LogRecord)
    (st : GammaState) (ν : ℕ) :
    (l.foldl (processRecord e ip) st).gamma ν = st.gamma ν + sumValueAt ν l := by
  induction l generalizing st with
  | nil => simp [sumValueAt]
  | cons r t ih =>
    rw [List.foldl_cons, ih]
    unfold processRecord addAt1 sumValueAt
    simp only [List.map_cons, List.sum_cons]
    by_cases h : ν = r.nu <;> simp [h, sumValueAt] <;> ring

theorem foldl_processRecord_ps (e ip : Bool) (l : List LogRecord)
    (st : GammaState) (ν : ℕ) :
    (l.foldl (processRecord e ip) st).ps ν = st.ps ν + sumPsAt ν l := by
  induction l generalizing st with
  | nil => simp [sumPsAt]
  | cons r t ih =>
    rw [List.foldl_cons, ih]
    unfold processRecord addAt1 sumPsAt
    simp only [List.map_cons, List.sum_cons]
    by_cases h : ν = r.nu <;> simp [h, sumPsAt] <;> ring

theorem foldl_processFresh_gamma (e ip : Bool) (l : List LogRecord)
    (st : GammaState) (ν : ℕ) :
    (l.foldl (processFresh e ip) st).gamma ν = st.gamma ν + sumValueAt ν l := by
  induction l generalizing st with
  | nil => simp [sumValueAt]
  | cons r t ih =>
    rw [List.foldl_cons, ih]
    unfold processFresh processRecord addAt1 sumValueAt
    simp only [List.map_cons, List.sum_cons]
    by_cases h : ν = r.nu <;> simp [h, sumValueAt] <;> ring

theorem foldl_processFresh_ps (e ip : Bool) (l : List LogRecord)
    (st : GammaState) (ν : ℕ) :
    (l.foldl (processFresh e ip) st).ps ν = st.ps ν + sumPsAt ν l := by
  induction l generalizing st with
  | nil => simp [sumPsAt]
  | cons r t ih =>
    rw [List.foldl_cons, ih]
    unfold processFresh processRecord addAt1 sumPsAt
    simp only [List.map_cons, List.sum_cons]
    by_cases h : ν = r.nu <;> simp [h, sumPsAt] <;> ring

theorem foldl_processRecord_tensor_disabled (ip : Bool) (l : List LogRecord)
    (st : GammaState) :
    (l.foldl (processRecord false ip) st).gammaTensor = st.gammaTensor := by
  induction l generalizing st with
  | nil => rfl
  | cons r t ih =>
    rw [List.foldl_cons, ih]
    rfl

theorem foldl_processFresh_tensor_disabled (ip : Bool) (l : List LogRecord)
    (st : GammaState) :
    (l.foldl (processFresh false ip) st).gammaTensor = st.gammaTensor := by
  induction l generalizing st with
  | nil => rfl
  | cons r t ih =>
    rw [List.foldl_cons, ih]
    rfl

/-- The fresh records a pass accumulates and logs, in order: the pass stops
at the first physical visited mode when the kernel name is unrecognized. -/
def passRecords (name : String) (physical : ℕ → ℕ → Bool)
    (modeRecords : ℕ → ℕ → List LogRecord) : List (ℕ × ℕ) → List LogRecord
  | [] => []
  | (ik, mu) :: rest =>
    if physical ik mu then
      match broadeningDispatch name with
      | none => []
      | some _ => modeRecords ik mu ++ passRecords name physical modeRecords rest
    else passRecords name physical modeRecords rest

theorem passLoop_eq (e ip : Bool) (name : String) (physical : ℕ → ℕ → Bool)
    (mrec : ℕ → ℕ → List LogRecord) (l : List (ℕ × ℕ)) (st : GammaState) :
    passLoop e ip name physical mrec l st =
      ((passRecords name physical mrec l).foldl (processFresh e ip) st,
        (broadeningDispatch name).isNone &&
          l.any fun km => physical km.1 km.2) := by
  induction l generalizing st with
  | nil => simp [passLoop, passRecords]
  | cons km rest ih =>
    obtain ⟨ik, mu⟩ := km
    by_cases hph : physical ik mu
    · cases hname : broadeningDispatch name with
      | none => simp [passLoop, passRecords, hph, hname]
      | some k =>
        simp only [passLoop, passRecords, hph, hname, if_pos, List.foldl_append]
        rw [ih]
        simp [hname]
    · simp only [passLoop, passRecords, hph, if_neg, Bool.false_eq_true,
        not_false_iff]
      rw [ih]
      simp [hph]

theorem passRecords_of_dispatch_none (name : String)
    (physical : ℕ → ℕ → Bool) (mrec : ℕ → ℕ → List LogRecord)
    (hname : broadeningDispatch name = none) (l : List (ℕ × ℕ)) :
    passRecords name physical mrec l = [] := by
  induction l with
  | nil => rfl
  | cons km rest ih =>
    obtain ⟨ik, mu⟩ := km
    by_cases hph : physical ik mu <;> simp [passRecords, hph, hname, ih]

theorem replayLog_gamma (e ip : Bool) (log : List LogRecord)
    (st : GammaState) (ν : ℕ) :
    (replayLog e ip log st).gamma ν = st.gamma ν + sumValueAt ν log :=
  foldl_processRecord_gamma e ip log st ν

theorem replayLog_ps (e ip : Bool) (log : List LogRecord) (st : GammaState)
    (ν : ℕ) : (replayLog e ip log st).ps ν = st.ps ν + sumPsAt ν log :=
  foldl_processRecord_ps e ip log st ν

theorem replayLog_tensor_disabled (ip : Bool) (log : List LogRecord)
    (st : GammaState) :
    (replayLog false ip log st).gammaTensor = st.gammaTensor :=
  foldl_processRecord_tensor_disabled ip log st

theorem runPass_eq (e ip : Bool) (name : String) (physical : ℕ → ℕ → Bool)
    (mrec : ℕ → ℕ → List LogRecord) (nptk n_modes : ℕ)
    (log : List LogRecord) (st : GammaState) :
    runPass e ip name physical mrec nptk n_modes log st =
      ((passRecords name physical mrec
          (visitedModes nptk n_modes (readNu log))).foldl (processFresh e ip)
          (replayLog e ip log st),
        (broadeningDispatch name).isNone &&
          (visitedModes nptk n_modes (readNu log)).any
            fun km => physical km.1 km.2) := by
  unfold runPass
  exact passLoop_eq e ip name physical mrec _ _

/-- Whether a pass aborts with the unbound-kernel error: the name is
unrecognized and some visited bra mode is physical. -/
def passAbortFlag (name : String) (physical : ℕ → ℕ → Bool)
    (nptk n_modes : ℕ) (log : List LogRecord) : Bool :=
  (broadeningDispatch name).isNone &&
    (visitedModes nptk n_modes (readNu log)).any fun km => physical km.1 km.2

/-- All records an invocation accumulates, in order: the plus pass's
replayed log and fresh records, then — unless the plus pass aborted — the
minus pass's replayed log and fresh records. -/
def processedRecords (name : String) (physical : ℕ → ℕ → Bool)
    (modeRecords : Bool → ℕ → ℕ → List LogRecord) (nptk n_modes : ℕ)
    (logP logM : List LogRecord) : List LogRecord :=
  let recsP := logP ++ passRecords name physical (modeRecords true)
    (visitedModes nptk n_modes (readNu logP))
  if passAbortFlag name physical nptk n_modes logP then recsP
  else recsP ++ logM ++ passRecords name physical (modeRecords false)
    (visitedModes nptk n_modes (readNu logM))

theorem calculateGamma_gamma (enabled : Bool) (name : String)
    (physical : ℕ → ℕ → Bool) (modeRecords : Bool → ℕ → ℕ → List LogRecord)
    (nptk n_modes : ℕ) (logP logM : List LogRecord) (prior : GammaState)
    (ν : ℕ) :
    (calculateGamma enabled name physical modeRecords nptk n_modes logP logM
        prior).1.gamma ν =
      sumValueAt ν
        (processedRecords name physical modeRecords nptk n_modes logP logM) := by
  unfold calculateGamma processedRecords passAbortFlag
  simp only [runPass_eq]
  by_cases hab : ((broadeningDispatch name).isNone &&
      (visitedModes nptk n_modes (readNu logP)).any
        fun km => physical km.1 km.2) = true
  · simp only [if_pos hab]
    rw [foldl_processFresh_gamma, replayLog_gamma, sumValueAt_append]
    show (0 : ℝ) + _ + _ = _ + _
    ring
  · simp only [if_neg hab]
    rw [foldl_processFresh_gamma, replayLog_gamma, foldl_processFresh_gamma,
      replayLog_gamma, sumValueAt_append, sumValueAt_append, sumValueAt_append]
    show (0 : ℝ) + _ + _ + _ + _ = _ + _ + _ + _
    ring

theorem calculateGamma_ps (enabled : Bool) (name : String)
    (physical : ℕ → ℕ → Bool) (modeRecords : Bool → ℕ → ℕ → List LogRecord)
    (nptk n_modes : ℕ) (logP logM : List LogRecord) (prior : GammaState)
    (ν : ℕ) :
    (calculateGamma enabled name physical modeRecords nptk n_modes logP logM
        prior).1.ps ν =
      sumPsAt ν
        (processedRecords name physical modeRecords nptk n_modes logP logM) := by
  unfold calculateGamma processedRecords passAbortFlag
  simp only [runPass_eq]
  by_cases hab : ((broadeningDispatch name).isNone &&
      (visitedModes nptk n_modes (readNu logP)).any
        fun km => physical km.1 km.2) = true
  · simp only [if_pos hab]
    rw [foldl_processFresh_ps, replayLog_ps, sumPsAt_append]
    show (0 : ℝ) + _ + _ = _ + _
    ring
  · simp only [if_neg hab]
    rw [foldl_processFresh_ps, replayLog_ps, foldl_processFresh_ps,
      replayLog_ps, sumPsAt_append, sumPsAt_append, sumPsAt_append]
    show (0 : ℝ) + _ + _ + _ + _ = _ + _ + _ + _
    ring

theorem calculateGamma_tensor_disabled (name : String)
    (physical : ℕ → ℕ → Bool) (modeRecords : Bool → ℕ → ℕ → List LogRecord)
    (nptk n_modes : ℕ) (logP logM : List LogRecord) (prior : GammaState) :
    (calculateGamma false name physical modeRecords nptk n_modes logP logM
        prior).1.gammaTensor = prior.gammaTensor := by
  unfold calculateGamma
  simp only [runPass_eq]
  by_cases hab : ((broadeningDispatch name).isNone &&
      (visitedModes nptk n_modes (readNu logP)).any
        fun km => physical km.1 km.2) = true
  · simp only [if_pos hab]
    rw [foldl_processFresh_tensor_disabled, replayLog_tensor_disabled]
    rfl
  · simp only [if_neg hab]
    rw [foldl_processFresh_tensor_disabled, replayLog_tensor_disabled,
      foldl_processFresh_tensor_disabled, replayLog_tensor_disabled]
    rfl

/-- The all-zero accumulator state (a freshly constructed phonons object). -/
def zeroGammaState : GammaState :=
  { gamma := fun _ => 0, ps := fun _ => 0, gammaTensor := fun _ _ => 0,
    linesWritten := 0 }

/-- C1: evaluation of the resume logic at the failing input.  On a `1×1×1`
mesh with two branches (`nptk = 1`, `n_modes = 2`), truncate the checkpoint
log to the lines of the first bra mode (flat index 0), so the resume cursor
is `read_nu = 1`.  The spec requires the resumed pass to still evaluate the
unlogged branch `(0, 1)` of the partially-completed wavevector
(`specVisitedModes`), but the `break` of source lines 356-357 makes the
resumed pass evaluate no bra mode at all, while an uninterrupted pass
(`read_nu = 0`) does evaluate `(0, 1)` — so the resumed run's final arrays
miss that mode's contributions. -/
theorem resume_break_skips_unlogged_branch :
    (0, 1) ∈ specVisitedModes 1 2 1 ∧
    visitedModes 1 2 1 = [] ∧
    (0, 1) ∈ visitedModes 1 2 0 := by decide

/-- C2 counterexample: with the unrecognized kernel name "flat" and a
one-line checkpoint log on a two-wavevector mesh, the pass updates the rate
accumulator during replay (`gamma[0]` becomes 1) and only afterwards raises
the unbound-kernel error — so the error is not raised before computation
begins, and an accumulator update precedes it. -/
theorem unrecognized_kernel_error_counterexample :
    broadeningDispatch "flat" = none ∧
    (runPass false true "flat" (fun _ _ => true) (fun _ _ => []) 2 1
        [LogRecord.mk 0 0 0 1 1] zeroGammaState).2 = true ∧
    (runPass false true "flat" (fun _ _ => true) (fun _ _ => []) 2 1
        [LogRecord.mk 0 0 0 1 1] zeroGammaState).1.gamma 0 = 1 := by
  have hn : broadeningDispatch "flat" = none := rfl
  have hv : visitedModes 2 1 (readNu [LogRecord.mk 0 0 0 1 1]) = [(1, 0)] := by
    show visitedModes 2 1 1 = [(1, 0)]
    decide
  refine ⟨hn, ?_, ?_⟩
  · rw [runPass_eq, hv]
    rfl
  · rw [runPass_eq, passRecords_of_dispatch_none _ _ _ hn]
    show (replayLog false true [LogRecord.mk 0 0 0 1 1]
      zeroGammaState).gamma 0 = 1
    unfold replayLog processRecord addAt1 zeroGammaState
    simp

/-- C2 (amended: the error is not raised before computation begins; the
counterexample forces the ordering below).  With an unrecognized
broadening-kernel name, a `calculate_gamma` pass first replays the full
checkpoint log into the accumulators; the unbound-kernel error fires only
upon evaluating the first visited bra mode above the frequency threshold
(no triplet of which is evaluated or logged), and a pass visiting no
physical bra mode completes without any error. -/
theorem unrecognized_kernel_replays_then_errors (e ip : Bool) (name : String)
    (physical : ℕ → ℕ → Bool) (mrec : ℕ → ℕ → List LogRecord)
    (nptk n_modes : ℕ) (log : List LogRecord) (st : GammaState)
    (hname : broadeningDispatch name = none) :
    runPass e ip name physical mrec nptk n_modes log st =
      (replayLog e ip log st,
        (visitedModes nptk n_modes (readNu log)).any
          fun km => physical km.1 km.2) := by
  rw [runPass_eq, passRecords_of_dispatch_none _ _ _ hname, hname]
  rfl

/-- Witness for C2's amended theorem at a concrete input: the unrecognized
name "flat" on a one-mode mesh with an empty log. -/
theorem unrecognized_kernel_replays_then_errors_witness :
    broadeningDispatch "flat" = none ∧
    runPass false true "flat" (fun _ _ => false) (fun _ _ => []) 1 1 []
        zeroGammaState =
      (replayLog false true [] zeroGammaState,
        (visitedModes 1 1 (readNu [])).any
          fun km => (fun _ _ => false) km.1 km.2) :=
  ⟨rfl, unrecognized_kernel_replays_then_errors false true "flat"
    (fun _ _ => false) (fun _ _ => []) 1 1 [] zeroGammaState rfl⟩

/-- C6: for every run of `calculate_gamma` with the full-tensor option
disabled, no write to the mode-pair gamma tensor ever occurs — neither
during log replay nor during fresh computation, so the tensor state after
the invocation is exactly the prior state — and the resulting per-mode rate
and phase-space arrays are identical to those produced by the same run with
the option enabled. -/
theorem tensor_disabled_frame_and_same_totals (name : String)
    (physical : ℕ → ℕ → Bool) (modeRecords : Bool → ℕ → ℕ → List LogRecord)
    (nptk n_modes : ℕ) (logP logM : List LogRecord) (prior : GammaState) :
    ((calculateGamma false name physical modeRecords nptk n_modes logP logM
        prior).1.gammaTensor = prior.gammaTensor) ∧
    (∀ ν, (calculateGamma false name physical modeRecords nptk n_modes logP
        logM prior).1.gamma ν =
      (calculateGamma true name physical modeRecords nptk n_modes logP logM
        prior).1.gamma ν) ∧
    (∀ ν, (calculateGamma false name physical modeRecords nptk n_modes logP
        logM prior).1.ps ν =
      (calculateGamma true name physical modeRecords nptk n_modes logP logM
        prior).1.ps ν) := by
  refine ⟨calculateGamma_tensor_disabled name physical modeRecords nptk
    n_modes logP logM prior, fun ν => ?_, fun ν => ?_⟩
  · rw [calculateGamma_gamma, calculateGamma_gamma]
  · rw [calculateGamma_ps, calculateGamma_ps]

/-- C9: at the start of every `calculate_gamma` invocation the per-mode rate
and phase-space accumulators (and, when requested, the mode-pair tensor)
are reset to all zeros before any replay or fresh computation, so the
returned totals equal exactly the sum of that invocation's replayed log
records and freshly computed contributions — independent of any accumulator
state left by a previous in-memory invocation. -/
theorem invocation_resets_and_sums_records (enabled : Bool) (name : String)
    (physical : ℕ → ℕ → Bool) (modeRecords : Bool → ℕ → ℕ → List LogRecord)
    (nptk n_modes : ℕ) (logP logM : List LogRecord)
    (prior prior' : GammaState) (ν : ℕ) :
    ((resetState enabled prior).gamma ν = 0 ∧
      (resetState enabled prior).ps ν = 0 ∧
      (∀ i j, (resetState true prior).gammaTensor i j = 0)) ∧
    (calculateGamma enabled name physical modeRecords nptk n_modes logP logM
        prior).1.gamma ν =
      sumValueAt ν
        (processedRecords name physical modeRecords nptk n_modes logP logM) ∧
    (calculateGamma enabled name physical modeRecords nptk n_modes logP logM
        prior).1.ps ν =
      sumPsAt ν
        (processedRecords name physical modeRecords nptk n_modes logP logM) ∧
    (calculateGamma enabled name physical modeRecords nptk n_modes logP logM
        prior).1.gamma ν =
      (calculateGamma enabled name physical modeRecords nptk n_modes logP
        logM prior').1.gamma ν ∧
    (calculateGamma enabled name physical modeRecords nptk n_modes logP logM
        prior).1.ps ν =
      (calculateGamma enabled name physical modeRecords nptk n_modes logP
        logM prior').1.ps ν := by
  refine ⟨⟨rfl, rfl, fun i j => rfl⟩,
    calculateGamma_gamma enabled name physical modeRecords nptk n_modes logP
      logM prior ν,
    calculateGamma_ps enabled name physical modeRecords nptk n_modes logP
      logM prior ν, ?_, ?_⟩
  · rw [calculateGamma_gamma, calculateGamma_gamma]
  · rw [calculateGamma_ps, calculateGamma_ps]
